import Mathlib

/-!
# Verification of the youtube-video-summary transcript pipeline

A shallow embedding of the Go sources of `ahmethakanbesel/youtube-video-summary`
(`pkg/youtube/youtube.go`, `internal/transcript/repository.go`, the service and
router files) together with theorems settling the frozen claims about the
natural-language specification.

Modelling conventions, used throughout:
* Go `float64` values (segment times, interval lengths) are modelled as `Rat`.
  All values the program manipulates on the paths covered here come from
  decimal literals and sums of such, for which rational arithmetic agrees
  with IEEE semantics on the examples proved below.  Because the library's
  rational operations are `irreducible` (so closed instances would not reduce
  inside the kernel), the embedding builds values with the equivalent
  `Rat.divInt`-based helpers `qAdd`/`qSub`/`qMul`/`qDiv` proved below to be
  the standard operations.
* Go slices and maps become `List` and `String → Option _`; a `nil` slice is
  the empty list (the only place the program distinguishes `nil` from an empty
  slice, the router's `resp.Formatted == nil` check, is reached only with
  values produced by `FormatTranscript`, which never returns a non-nil empty
  slice).
* Fallible Go functions returning `(T, error)` become `Option T` or
  `Except E T`; distinct error messages are collapsed when no claim
  distinguishes them, and the collapse is noted at the definition.
* Network collaborators and the cancellation signal are explicit inputs
  (oracles); the network requests a function issues are recorded in an event
  trace so that claims about which stages run can be stated.
-/

/-- Decidable equality for `Except` (kernel-reducible, used to state closed
facts about the fallible operations below). -/
instance {ε α : Type} [DecidableEq ε] [DecidableEq α] : DecidableEq (Except ε α) := fun
  | .error a, .error b =>
    if h : a = b then .isTrue (h ▸ rfl)
    else .isFalse (fun he => h (by cases he; rfl))
  | .error _, .ok _ => .isFalse (by intro h; cases h)
  | .ok _, .error _ => .isFalse (by intro h; cases h)
  | .ok a, .ok b =>
    if h : a = b then .isTrue (h ▸ rfl)
    else .isFalse (fun he => h (by cases he; rfl))

/-! ## Kernel-reducible rational arithmetic -/

/-- Addition on `Rat` via `Rat.divInt` (reducible, unlike `Rat.add`). -/
def qAdd (a b : Rat) : Rat := Rat.divInt (a.num * b.den + b.num * a.den) (a.den * b.den)

/-- Subtraction on `Rat` via `Rat.divInt`. -/
def qSub (a b : Rat) : Rat := Rat.divInt (a.num * b.den - b.num * a.den) (a.den * b.den)

/-- Multiplication on `Rat` via `Rat.divInt`. -/
def qMul (a b : Rat) : Rat := Rat.divInt (a.num * b.num) (a.den * b.den)

/-- Division on `Rat` via `Rat.divInt` (division by zero yields zero,
matching `Rat.div`). -/
def qDiv (a b : Rat) : Rat := Rat.divInt (a.num * b.den) (a.den * b.num)

/-! ## Go string helpers

Go treats strings as byte slices; the embedding uses `List Char` (obtained by
`String.data`), on which recursion is structural and therefore evaluates
inside the kernel.  Every string constant this program compares against is
ASCII, where the byte view and the character view agree. -/

/-- Model of Go `unicode.IsSpace` restricted to the ASCII white-space
characters (space, tab, newline, vertical tab, form feed, carriage return);
the non-ASCII Unicode space code points are not modelled — none can occur in
the ASCII-only documents and constants treated here. -/
def isGoSpace (c : Char) : Bool :=
  c = ' ' ∨ c = '\t' ∨ c = '\n' ∨ c = '\r' ∨ c.toNat = 11 ∨ c.toNat = 12

/-- Model of Go `strings.TrimSpace` on the character list. -/
def trimSpaceList (cs : List Char) : List Char :=
  ((cs.dropWhile isGoSpace).reverse.dropWhile isGoSpace).reverse

/-- Model of Go `strings.Split` with a one-character separator (the only
shape this program uses).  Like Go, splitting the empty string yields one
empty field. -/
def splitOnChar (sep : Char) : List Char → List (List Char)
  | [] => [[]]
  | c :: rest =>
    if c = sep then [] :: splitOnChar sep rest
    else
      match splitOnChar sep rest with
      | h :: t => (c :: h) :: t
      | [] => [[c]]

/-- Model of Go `strings.ToLower` restricted to ASCII (the allowed host
names compared against are ASCII). -/
def toLowerList (cs : List Char) : List Char := cs.map Char.toLower

/-! ## Data model (youtube.go lines 64-81) -/

/-- `youtube.TranscriptSegment`: one timestamped unit of transcript text. -/
structure TranscriptSegment where
  text : String
  startTime : Rat
  duration : Rat
deriving DecidableEq, Repr

/-- `youtube.Transcript`: the ordered sequence of segments. -/
structure GoTranscript where
  segments : List TranscriptSegment
deriving DecidableEq, Repr

/-! ## Decimal number parsing (model of `strconv.ParseFloat`)

`strconv.ParseFloat` is Go standard library.  The model below accepts the
decimal forms `[+|-]digits[.digits][e|E[+|-]digits]` (at least one digit in the
mantissa), which is the fragment the transcript timestamps exercise.  Not
modelled: hexadecimal floats, `Inf`/`NaN` spellings, and digit-separating
underscores — none of which occur in timed-text timestamps, and rejecting them
only widens the error case the claims already allow. -/

/-- Consume leading decimal digits: returns (value, digit count, rest). -/
def takeDigits : List Char → Nat → Nat → Nat × Nat × List Char
  | [], v, n => (v, n, [])
  | c :: rest, v, n =>
    if c.isDigit then takeDigits rest (10 * v + (c.toNat - 48)) (n + 1)
    else (v, n, c :: rest)

/-- Core of the `ParseFloat` model, over the character list.  The returned
value is `sign * (intPart + fracPart / 10^fracDigits) * 10^(±exp)`, built
directly with `Rat.divInt` so that it evaluates inside the kernel. -/
def parseFloatCore (cs : List Char) : Option Rat :=
  let (neg, cs1) : Bool × List Char :=
    match cs with
    | '+' :: r => (false, r)
    | '-' :: r => (true, r)
    | r => (false, r)
  let (ip, ni, cs2) := takeDigits cs1 0 0
  let (fp, nf, cs3) :=
    match cs2 with
    | '.' :: r => takeDigits r 0 0
    | r => (0, 0, r)
  if ni = 0 ∧ nf = 0 then none
  else
    let n : Int := if neg then -(ip * 10 ^ nf + fp : Nat) else (ip * 10 ^ nf + fp : Nat)
    match cs3 with
    | [] => some (Rat.divInt n (10 ^ nf))
    | e :: r =>
      if e = 'e' ∨ e = 'E' then
        let (epos, r1) : Bool × List Char :=
          match r with
          | '+' :: r2 => (true, r2)
          | '-' :: r2 => (false, r2)
          | r2 => (true, r2)
        let (ev, ne, r2) := takeDigits r1 0 0
        if ne = 0 ∨ r2 ≠ [] then none
        else if epos then some (Rat.divInt (n * 10 ^ ev) (10 ^ nf))
        else some (Rat.divInt n (10 ^ nf * 10 ^ ev))
      else none

/-- Model of `strconv.ParseFloat(s, 64)`: `none` is the error case. -/
def parseFloat (s : String) : Option Rat := parseFloatCore s.data

/-! ## Time codec (youtube.go lines 314-336) -/

/-- `parseTime` (youtube.go 314-336): a trailing `"s"` (`strings.HasSuffix` /
`TrimSuffix`, modelled on the last character, which for the ASCII byte `s`
agrees with the byte view) means the rest is a plain decimal number of
seconds; otherwise the input must split on `":"` into exactly three decimal
fields `H:M:S`, combined as `H*3600 + M*60 + S`.  `none` is the error case
(the Go code's distinct error messages are not needed by any claim). -/
def parseTime (timeStr : String) : Option Rat :=
  match timeStr.data.getLast? with
  | some 's' => parseFloatCore timeStr.data.dropLast
  | _ =>
    match splitOnChar ':' timeStr.data with
    | [h, m, sec] =>
      match parseFloatCore h, parseFloatCore m, parseFloatCore sec with
      | some hv, some mv, some sv => some (qAdd (qAdd (qMul hv 3600) (qMul mv 60)) sv)
      | _, _, _ => none
    | _ => none

/-! ## Timestamp formatting (youtube.go lines 189-197) -/

/-- Go's `int(f)` conversion for `float64`: truncation toward zero. -/
def ratTrunc (q : Rat) : Int := if 0 ≤ q then ⌊q⌋ else ⌈q⌉

/-- Model of `fmt.Sprintf("%02d", n)` for `n : Int`: the decimal rendering,
left-padded with `0` to a minimum width of two (a sign counts toward the
width, as in Go). -/
def sprintf02d (n : Int) : String :=
  let s := toString n
  if s.length < 2 then "0" ++ s else s

/-- `formatTimeText` (youtube.go 189-197): renders `"(HH:MM:SS) text"` when
the hour component is positive and `"(MM:SS) text"` otherwise.  The `hours`,
`minutes` and `seconds` components mirror the Go `int(...)` arithmetic. -/
def formatTimeText (startTime : Rat) (text : String) : String :=
  let hours : Int := ratTrunc (qDiv startTime 3600)
  let minutes : Int := ratTrunc (qDiv (qSub startTime ((hours * 3600 : Int) : Rat)) 60)
  let seconds : Int := ratTrunc (qSub startTime ((hours * 3600 + minutes * 60 : Int) : Rat))
  if 0 < hours then
    "(" ++ sprintf02d hours ++ ":" ++ sprintf02d minutes ++ ":" ++ sprintf02d seconds ++ ") " ++ text
  else
    "(" ++ sprintf02d minutes ++ ":" ++ sprintf02d seconds ++ ") " ++ text

/-! ## Interval grouper (youtube.go lines 159-187) -/

/-- Loop body of `Client.FormatTranscript` (youtube.go 169-183): walks the
segments carrying the group anchor `currentStart`, the accumulated
`strings.Builder` contents `groupText`, and the emitted groups `formatted`;
flushes when a segment starts at least `interval` seconds after the anchor
and the builder is non-empty, then always appends the segment text
(space-separated when the builder is non-empty). -/
def formatLoop : List TranscriptSegment → Rat → Rat → String → List String → List String
  | [], _, currentStart, groupText, formatted =>
    if groupText = "" then formatted
    else formatted ++ [formatTimeText currentStart groupText]
  | seg :: rest, interval, currentStart, groupText, formatted =>
    if interval ≤ qSub seg.startTime currentStart ∧ groupText ≠ "" then
      formatLoop rest interval seg.startTime seg.text
        (formatted ++ [formatTimeText currentStart groupText])
    else
      formatLoop rest interval currentStart
        (if groupText = "" then seg.text else groupText ++ " " ++ seg.text) formatted

/-- `Client.FormatTranscript` (youtube.go 159-187).  The Go function returns
`(nil, nil)` for a nil transcript or one without segments; its error result
is always `nil` (no code path produces an error), so the model returns the
group list only, with the nil slice modelled as `[]`. -/
def FormatTranscript (transcript : Option GoTranscript) (intervalSeconds : Rat) : List String :=
  match transcript with
  | none => []
  | some t =>
    match t.segments with
    | [] => []
    | s0 :: _ => formatLoop t.segments intervalSeconds s0.startTime "" []

/-! ## Timed-text parser (youtube.go lines 270-312) -/

/-- One `<p>` element of the decoded TTML document (youtube.go 270-281):
its `begin` attribute, `end` attribute and character data. -/
structure Paragraph where
  beginAttr : String
  endAttr : String
  text : String
deriving DecidableEq, Repr

/-- Per-paragraph loop of `parseTTMLTranscript` (youtube.go 290-311): skip
the paragraph when `begin` or `end` fails to parse; trim the text; emit the
segment (with `duration = end - begin`) only when the trimmed text is
non-empty.  The input is the paragraph list of an already-decoded document:
a document whose top-level structure cannot be decoded at all is a hard
failure in the fetcher (modelled at `GetTranscript`), not here. -/
def parseTTMLSegments : List Paragraph → List TranscriptSegment
  | [] => []
  | p :: rest =>
    match parseTime p.beginAttr with
    | none => parseTTMLSegments rest
    | some startTime =>
      match parseTime p.endAttr with
      | none => parseTTMLSegments rest
      | some endTime =>
        let text := String.mk (trimSpaceList p.text.data)
        if text ≠ "" then
          ⟨text, startTime, qSub endTime startTime⟩ :: parseTTMLSegments rest
        else parseTTMLSegments rest

/-! ## Caption tracks and track selection (youtube.go lines 96-112, 199-212) -/

/-- One entry of `captionTracks` in the player response. -/
structure CaptionTrack where
  baseURL : String
  vssId : String
  languageCode : String
deriving DecidableEq, Repr

/-- The selection predicate of the loop at youtube.go 103-109:
`strings.HasPrefix(track.VssID, ".en") || track.LanguageCode == "en"`. -/
def isEnglishTrack (t : CaptionTrack) : Bool :=
  ".en".data.isPrefixOf t.vssId.data || t.languageCode == "en"

/-- The loop at youtube.go 103-109: `captionURL` is the base URL of the
first matching track, or `""` when no track matches (the loop `break`s at
the first hit). -/
def findCaptionURL : List CaptionTrack → String
  | [] => ""
  | t :: rest => if isEnglishTrack t then t.baseURL else findCaptionURL rest

/-- Track selection inside `Client.GetTranscript` (youtube.go 96-113): zero
tracks is the `"no caption tracks available"` error (`none`); otherwise the
first matching track's URL, with the fallback `captionURL == ""` check at
line 110 replacing it by the FIRST track's URL whenever the loop produced
the empty string. -/
def selectCaptionURL (tracks : List CaptionTrack) : Option String :=
  match tracks with
  | [] => none
  | first :: _ =>
    let url := findCaptionURL tracks
    some (if url = "" then first.baseURL else url)

/-! ## Transcript fetcher (youtube.go lines 83-142, 214-260)

The two network stages are oracles.  Stage 1 (`getPlayerResponse`) builds its
request with `http.NewRequestWithContext(ctx, ...)`, so the Go HTTP client
honours the caller's cancellation signal there.  Stage 2 is issued at
youtube.go 116 with `c.httpClient.Get(ttmlURL)` — a request carrying no
context — and no cancellation check is made between the stages, which the
model mirrors by never consulting `cancelledBetween`.  Every network request
the function issues is appended to the returned event trace. -/

/-- The decoded player response (youtube.go 199-212): the caption track list
and the `videoDetails.title` field. -/
structure PlayerResp where
  title : String
  captionTracks : List CaptionTrack
deriving DecidableEq, Repr

/-- State of the caller's cancellation signal (`ctx`):
`cancelledAtStage1` — the signal has fired by the time the stage-1 request is
performed; `cancelledBetween` — it fires after stage 1 completes and before
stage 2 would begin. -/
structure Ctx where
  cancelledAtStage1 : Bool
  cancelledBetween : Bool
deriving DecidableEq, Repr

/-- Outcome of a stage-2 caption download: transport error, or an HTTP
response whose body either fails TTML decoding or yields a paragraph list. -/
inductive CaptionNet where
  | netErr : CaptionNet
  | resp (status : Nat) (body : Except Unit (List Paragraph)) : CaptionNet
deriving DecidableEq

/-- The network collaborators of `Client.GetTranscript`.  For stage 1 the
transport failure, the non-200 status and the JSON decode failure are
collapsed into the single error case (no claim distinguishes them). -/
structure FetchOracle where
  player : Except Unit PlayerResp
  caption : String → CaptionNet

/-- The network requests `Client.GetTranscript` can issue. -/
inductive NetEv where
  | playerRequest : NetEv
  | captionRequest (url : String) : NetEv
deriving DecidableEq, Repr

/-- The distinct failure outcomes of `Client.GetTranscript`; `ctxCancelled`
models the `context.Canceled`/deadline error surfaced through the stage-1
HTTP client. -/
inductive FetchErr where
  | ctxCancelled : FetchErr
  | playerFailed : FetchErr
  | noCaptions : FetchErr
  | captionNetFailed : FetchErr
  | badStatus (code : Nat) : FetchErr
  | ttmlDecodeFailed : FetchErr
deriving DecidableEq, Repr

/-- `youtube.TranscriptResponse` as a plain value (title, optional raw
transcript, formatted groups). -/
structure YTResp where
  title : String
  raw : Option GoTranscript
  formatted : List String
deriving DecidableEq, Repr

/-- `Client.getPlayerResponse` (youtube.go 214-260): the request is built
with the caller's context, so a fired signal yields the cancellation error;
otherwise the oracle decides the outcome. -/
def getPlayerResponse (ctx : Ctx) (o : FetchOracle) : Except FetchErr PlayerResp × List NetEv :=
  if ctx.cancelledAtStage1 then (.error .ctxCancelled, [.playerRequest])
  else
    match o.player with
    | .error _ => (.error .playerFailed, [.playerRequest])
    | .ok pr => (.ok pr, [.playerRequest])

/-- `Client.GetTranscript` (youtube.go 84-142): stage 1, track selection,
then the stage-2 `GET` on `captionURL + "&fmt=ttml"` — issued directly with
no intervening cancellation check, exactly as in the source. -/
def GetTranscript (ctx : Ctx) (o : FetchOracle) : Except FetchErr YTResp × List NetEv :=
  match getPlayerResponse ctx o with
  | (.error e, evs) => (.error e, evs)
  | (.ok pr, evs) =>
    match selectCaptionURL pr.captionTracks with
    | none => (.error .noCaptions, evs)
    | some captionURL =>
      let ttmlURL := captionURL ++ "&fmt=ttml"
      let evs := evs ++ [.captionRequest ttmlURL]
      match o.caption ttmlURL with
      | .netErr => (.error .captionNetFailed, evs)
      | .resp status body =>
        if status ≠ 200 then (.error (.badStatus status), evs)
        else
          match body with
          | .error _ => (.error .ttmlDecodeFailed, evs)
          | .ok ps => (.ok ⟨pr.title, some ⟨parseTTMLSegments ps⟩, []⟩, evs)

/-! ## Video-id extraction (service layer, `Transcript.ExtractVideoId`)

The Go function applies the RE2 pattern
`(?:\/|%3D|v=|vi=)([a-zA-Z0-9_-]{11})(?:[%#?&\/]|$)` and takes the first
(leftmost) match.  The model scans positions left to right; at one position
the marker alternatives are mutually exclusive (they begin with distinct
character sequences), so alternation order is immaterial. -/

/-- The character class `[a-zA-Z0-9_-]`. -/
def isIdChar (c : Char) : Bool := c.isAlphanum || c = '_' || c = '-'

/-- The trailing class `[%#?&\/]`. -/
def isTermChar (c : Char) : Bool :=
  c = '%' || c = '#' || c = '?' || c = '&' || c = '/'

/-- The marker alternation `(?:\/|%3D|v=|vi=)`: if one of the markers begins
here, the characters after it. -/
def matchMarker : List Char → Option (List Char)
  | '/' :: r => some r
  | '%' :: '3' :: 'D' :: r => some r
  | 'v' :: '=' :: r => some r
  | 'v' :: 'i' :: '=' :: r => some r
  | _ => none

/-- Whole-pattern match anchored at the head of `cs`: a marker, then exactly
11 id characters, then a terminator character or the end of the input;
yields the captured 11-character group. -/
def matchTail (cs : List Char) : Option String :=
  match matchMarker cs with
  | none => none
  | some r =>
    let tok := r.take 11
    if tok.length = 11 ∧ tok.all isIdChar then
      match r.drop 11 with
      | [] => some (String.mk tok)
      | c :: _ => if isTermChar c then some (String.mk tok) else none
    else none

/-- Leftmost-match scan: try the pattern at each successive start position. -/
def scanForId : List Char → Option String
  | [] => none
  | c :: rest =>
    match matchTail (c :: rest) with
    | some id => some id
    | none => scanForId rest

/-- `Transcript.ExtractVideoId` (service layer, repository.go source lines
329-345): a string of byte length exactly 11 is returned unchanged with no
further validation; otherwise the first regex match (or `""`). -/
def extractVideoId (str : String) : String :=
  if str.utf8ByteSize = 11 then str
  else
    match scanForId str.data with
    | some id => id
    | none => ""

/-! ## URL validation (service layer, `Transcript.IsValidUrl`)

Models the fragment of `net/url.Parse` the validator depends on: the `Host`
field of the parsed URL.  Fidelity notes: Go errors on ASCII control
characters (modelled: host treated as absent, which makes `IsValidUrl`
return `false` exactly as the Go error branch does); invalid percent-escapes
also error in Go and are not modelled — no claim's input contains one.
`Host` keeps its port and original case (Go does not lower-case it; the
validator does). -/

/-- Scheme recognition of `net/url`: `alpha (alnum | + | - | .)* :` at the
very start.  Returns the characters after the colon when a scheme is
present.  A leading colon is a Go parse error, folded into "no scheme" here
(both make `IsValidUrl` false). -/
def afterSchemeGo : List Char → Nat → Option (List Char)
  | [], _ => none
  | c :: rest, i =>
    if c = ':' then (if i = 0 then none else some rest)
    else if (if i = 0 then c.isAlpha else c.isAlphanum || c = '+' || c = '-' || c = '.') then
      afterSchemeGo rest (i + 1)
    else none

/-- Scheme recognition entry point: the characters after the scheme colon,
when one is present. -/
def afterScheme (cs : List Char) : Option (List Char) :=
  afterSchemeGo cs 0

/-- Host extraction of `net/url.Parse`: strip the fragment (`#...`), strip
the query (`?...`), strip a scheme when present; an authority exists only
when the remainder begins with `//`, and extends to the next `/`; the host
is the part of the authority after the last `@`. -/
def goURLHost (s : String) : List Char :=
  let noFrag := (splitOnChar '#' s.data).headD []
  let noQuery := (splitOnChar '?' noFrag).headD []
  let rest := (afterScheme noQuery).getD noQuery
  match rest with
  | '/' :: '/' :: auth =>
    let authority := (splitOnChar '/' auth).headD []
    (splitOnChar '@' authority).getLast?.getD []
  | _ => []

/-- `Transcript.IsValidUrl` (repository.go source lines 350-378): lower-case
the host, strip a leading `www.`, compare with the three allowed domains. -/
def IsValidUrl (urlStr : String) : Bool :=
  let host := toLowerList (goURLHost urlStr)
  let host := if "www.".data.isPrefixOf host then host.drop 4 else host
  host = "youtube.com".data || host = "youtu.be".data || host = "m.youtube.com".data

/-! ## Service orchestration (`service.Transcript.GetTranscripts`)

The repository and the YouTube client are collaborators; their outcomes are
oracle inputs, and the calls the service makes are recorded in an event
trace.  `client.FormatTranscript` never returns a non-nil error (see
`FormatTranscript` above), so the service's `ErrFailedToFormat` branch is
dead code and the model has no corresponding error case. -/

/-- Outcome of `repo.Get`: a cached value, the `ErrTranscriptNotFound`
sentinel, or any other error (both non-`found` outcomes make the service
fall through to the network fetch). -/
inductive RepoGetResult where
  | found (t : YTResp) : RepoGetResult
  | notFound : RepoGetResult
  | failed : RepoGetResult
deriving DecidableEq, Repr

/-- Collaborator outcomes for one `GetTranscripts` run: the repository
lookup and the `client.GetTranscript` fetch (`.ok none` models a nil
response pointer with a nil error). -/
structure SvcOracle where
  repoGet : RepoGetResult
  fetchResult : Except Unit (Option YTResp)

/-- The service's error sentinels that can reach the router:
`ErrInvalidURL` (returned bare, so the router's `==` comparison matches it),
`ErrNoTranscript`, and the wrapped `ErrFailedToGet`. -/
inductive SvcErr where
  | invalidURL : SvcErr
  | noTranscript : SvcErr
  | failedToGet : SvcErr
deriving DecidableEq, Repr

/-- `service.TranscriptRequest`. -/
structure SvcRequest where
  videoURL : String
  videoID : String
  intervalSeconds : Rat
deriving DecidableEq, Repr

/-- `service.TranscriptResponse`: title, raw transcript pointer, formatted
groups (nil slice modelled as `[]`). -/
structure SvcResponse where
  title : String
  raw : Option GoTranscript
  formatted : List String
deriving DecidableEq, Repr

/-- The collaborator calls `GetTranscripts` can make, in order. -/
inductive SvcEv where
  | cacheGet : SvcEv
  | fetch : SvcEv
  | cacheSave : SvcEv
deriving DecidableEq, Repr

/-- `Transcript.GetTranscripts` (service layer, source lines 260-324):
normalize the interval, validate the URL, extract the video id, try the
cache, otherwise fetch, validate and cache the response, then format.
Save errors are logged and ignored, so the save event is recorded with no
error path. -/
def GetTranscripts (o : SvcOracle) (req : SvcRequest) : Except SvcErr SvcResponse × List SvcEv :=
  let interval := if req.intervalSeconds ≤ 0 then 10 else req.intervalSeconds
  if req.videoURL = "" ∨ IsValidUrl req.videoURL = false then (.error .invalidURL, [])
  else
    if req.videoID = "" ∧ extractVideoId req.videoURL = "" then (.error .invalidURL, [])
    else
      match o.repoGet with
      | .found t =>
        (.ok ⟨t.title, t.raw, FormatTranscript t.raw interval⟩, [.cacheGet])
      | .notFound | .failed =>
        match o.fetchResult with
        | .error _ => (.error .failedToGet, [.cacheGet, .fetch])
        | .ok none => (.error .noTranscript, [.cacheGet, .fetch])
        | .ok (some t) =>
          match t.raw with
          | none => (.error .noTranscript, [.cacheGet, .fetch])
          | some tr =>
            if tr.segments = [] then (.error .noTranscript, [.cacheGet, .fetch])
            else
              (.ok ⟨t.title, t.raw, FormatTranscript t.raw interval⟩,
                [.cacheGet, .fetch, .cacheSave])

/-! ## HTTP router (`router.Router.handleGetTranscripts`) -/

/-- The observable response body: an error object or the encoded
`TranscriptResponse`. -/
inductive HttpBody where
  | errBody (msg : String) : HttpBody
  | okBody (resp : SvcResponse) : HttpBody
deriving DecidableEq, Repr

/-- An incoming request as the handler sees it: the method, and the
`videoUrl` and `interval` query parameters (`""` models an absent
parameter, which is what Go's `Query().Get` returns). -/
structure HttpReq where
  method : String
  videoUrl : String
  interval : String
deriving DecidableEq, Repr

/-- `Router.handleGetTranscripts` (router source lines 169-214): non-GET is
405; a missing `videoUrl` is 400; the interval parameter falls back to `0`
when unparsable (the service then defaults it to 10); service errors map to
400 only for the `ErrInvalidURL` sentinel and to 500 otherwise; a nil-error
response with nil raw and nil formatted is 404; everything else is 200 with
the response body. -/
def handleGetTranscripts (o : SvcOracle) (req : HttpReq) : Nat × HttpBody :=
  if req.method ≠ "GET" then (405, .errBody "Method not allowed")
  else if req.videoUrl = "" then (400, .errBody "Missing videoUrl parameter")
  else
    let interval := (parseFloat req.interval).getD 0
    match (GetTranscripts o ⟨req.videoUrl, "", interval⟩).1 with
    | .error .invalidURL => (400, .errBody "Invalid YouTube video URL")
    | .error _ => (500, .errBody "Internal server error")
    | .ok resp =>
      if resp.raw = none ∧ resp.formatted = [] then (404, .errBody "No transcript available")
      else (200, .okBody resp)

/-! ## In-memory repository (`transcript.MemoryRepository`)

`Save` stores `transcriptCopy := *transcript` — a SHALLOW copy of the
`TranscriptResponse` struct — and `Get` returns such a copy.  The struct's
`Raw *Transcript` field is a pointer, which the shallow copy shares.  The
model makes the pointer explicit: `rawAddr` is an address into a heap of
`Transcript` cells (`THeap`, address = list index), the cache maps ids to
struct values, and `observeResponse` reads the value a caller sees through
a response (dereferencing `rawAddr` in a given heap).  Mutating a heap cell
models a caller writing through its own response's `Raw` pointer (e.g.
`t.Raw.Segments[0].Text = ...`).  The cache's `transcript == nil` check in
`Get` is unreachable (`Save` rejects nil input), so entries are modelled as
struct values directly. -/

/-- A heap of `youtube.Transcript` cells; an address is an index. -/
abbrev THeap := List GoTranscript

/-- The `youtube.TranscriptResponse` STRUCT value: `Raw` is a pointer,
modelled as an optional heap address. -/
structure CachedResponse where
  title : String
  rawAddr : Option Nat
  formatted : List String
deriving DecidableEq, Repr

/-- `MemoryRepository.Save` (repository.go 73-97): reject an empty id and a
nil transcript, honour the context, then store the shallow struct copy
(sharing `rawAddr`). -/
def MemoryRepository.Save (ctxDone : Bool) (cache : String → Option CachedResponse)
    (videoID : String) (transcript : Option CachedResponse) :
    Except String (String → Option CachedResponse) :=
  if videoID = "" then .error "video ID cannot be empty"
  else
    match transcript with
    | none => .error "invalid transcript"
    | some t =>
      if ctxDone then .error "context done"
      else .ok fun k => if k = videoID then some t else cache k

/-- `MemoryRepository.Get` (repository.go 43-71): reject an empty id, honour
the context, look up, and return the shallow struct copy (sharing
`rawAddr`). -/
def MemoryRepository.Get (ctxDone : Bool) (cache : String → Option CachedResponse)
    (videoID : String) : Except String CachedResponse :=
  if videoID = "" then .error "video ID cannot be empty"
  else if ctxDone then .error "context done"
  else
    match cache videoID with
    | none => .error "transcript not found"
    | some t => .ok t

/-- The value a caller observes through a response struct in a given heap:
the title, the dereferenced segments (if the raw pointer is non-nil), and
the formatted list. -/
def observeResponse (heap : THeap) (t : CachedResponse) :
    String × Option (List TranscriptSegment) × List String :=
  (t.title, (t.rawAddr.bind fun a => (heap.get? a).map (·.segments)), t.formatted)

/-! ## Claim-side reference definitions

These definitions follow the specification's wording (for the refinement
claims they are the reference against which the source-derived definitions
above are compared). -/

/-- Reference per-paragraph rule of spec §4.2: parse both attributes via the
time codec, trim the text, skip on any parse failure or empty trimmed text,
`duration = end - begin`. -/
def paragraphSegmentSpec (p : Paragraph) : Option TranscriptSegment :=
  match parseTime p.beginAttr, parseTime p.endAttr with
  | some b, some e =>
    if String.mk (trimSpaceList p.text.data) = "" then none
    else some ⟨String.mk (trimSpaceList p.text.data), b, e - b⟩
  | _, _ => none

/-- Reference join of spec §4.5: the accumulated texts joined with single
spaces. -/
def joinSpace : List String → String
  | [] => ""
  | [t] => t
  | t :: rest => t ++ " " ++ joinSpace rest

/-- Reference grouping loop of spec §4.5, carrying the pending group as its
anchor and its list of accumulated texts: flush when a segment starts
`interval` or more after the anchor and the pending group is non-empty, then
append every segment's text to the pending group. -/
def groupLoop : List TranscriptSegment → Rat → Rat → List String → List String → List String
  | [], _, anchor, texts, out =>
    if texts = [] then out else out ++ [formatTimeText anchor (joinSpace texts)]
  | seg :: rest, interval, anchor, texts, out =>
    if interval ≤ seg.startTime - anchor ∧ texts ≠ [] then
      groupLoop rest interval seg.startTime [seg.text]
        (out ++ [formatTimeText anchor (joinSpace texts)])
    else groupLoop rest interval anchor (texts ++ [seg.text]) out

/-- Reference grouper of spec §4.5: the pending group starts at the first
segment's start time; empty input yields empty output. -/
def groupSpec (segs : List TranscriptSegment) (interval : Rat) : List String :=
  match segs with
  | [] => []
  | s0 :: _ => groupLoop segs interval s0.startTime [] []

/-- Claim-side zero-padding to two digits (the decimal rendering, left-padded
with `0` to width two). -/
def pad2 (n : Nat) : String :=
  if (toString n).length < 2 then "0" ++ toString n else toString n

/-! ## Helper lemmas -/

theorem rat_den_cast_ne_zero (a : Rat) : ((a.den : Rat)) ≠ 0 := by
  exact_mod_cast a.den_nz

@[simp] theorem qAdd_eq (a b : Rat) : qAdd a b = a + b := by
  rw [qAdd, Rat.divInt_eq_div]
  push_cast
  conv_rhs => rw [← Rat.num_div_den a, ← Rat.num_div_den b]
  rw [div_add_div _ _ (rat_den_cast_ne_zero a) (rat_den_cast_ne_zero b)]
  ring_nf

@[simp] theorem qSub_eq (a b : Rat) : qSub a b = a - b := by
  rw [qSub, Rat.divInt_eq_div]
  push_cast
  conv_rhs => rw [← Rat.num_div_den a, ← Rat.num_div_den b]
  rw [div_sub_div _ _ (rat_den_cast_ne_zero a) (rat_den_cast_ne_zero b)]
  ring_nf

@[simp] theorem qMul_eq (a b : Rat) : qMul a b = a * b := by
  rw [qMul, Rat.divInt_eq_div]
  push_cast
  conv_rhs => rw [← Rat.num_div_den a, ← Rat.num_div_den b]
  rw [div_mul_div_comm]

@[simp] theorem qDiv_eq (a b : Rat) : qDiv a b = a / b := by
  rcases eq_or_ne b 0 with rfl | hb
  · simp [qDiv, Rat.divInt_eq_div]
  · have hbn : ((b.num : Rat)) ≠ 0 := by
      exact_mod_cast Rat.num_ne_zero.mpr hb
    have h1 := rat_den_cast_ne_zero a
    have h2 := rat_den_cast_ne_zero b
    rw [qDiv, Rat.divInt_eq_div]
    push_cast
    conv_rhs => rw [← Rat.num_div_den a, ← Rat.num_div_den b]
    field_simp


theorem joinSpace_append (l : List String) (x : String) (hl : l ≠ []) :
    joinSpace (l ++ [x]) = joinSpace l ++ " " ++ x := by
  induction l with
  | nil => cases hl rfl
  | cons a t ih =>
    cases t with
    | nil => rfl
    | cons b t2 =>
      show a ++ " " ++ joinSpace ((b :: t2) ++ [x]) = a ++ " " ++ joinSpace (b :: t2) ++ " " ++ x
      rw [ih (by simp)]
      simp [String.append_assoc]

theorem joinSpace_ne_empty (l : List String) (hl : l ≠ []) (h : ∀ t ∈ l, t ≠ "") :
    joinSpace l ≠ "" := by
  induction l with
  | nil => cases hl rfl
  | cons a t _ =>
    cases t with
    | nil => exact h a (by simp)
    | cons b t2 =>
      show a ++ " " ++ joinSpace (b :: t2) ≠ ""
      intro he
      have hlen := congrArg String.length he
      simp only [String.length_append, show (" " : String).length = 1 from rfl,
        show ("" : String).length = 0 from rfl] at hlen
      omega

theorem findCaptionURL_eq_find (l : List CaptionTrack) :
    findCaptionURL l = ((l.find? isEnglishTrack).map (·.baseURL)).getD "" := by
  induction l with
  | nil => rfl
  | cons t rest ih =>
    show (if isEnglishTrack t then t.baseURL else findCaptionURL rest) = _
    rw [List.find?_cons]
    by_cases h : isEnglishTrack t
    · simp [h]
    · simp [h, ih]

/-! ## Claim theorems -/

/-- C5 -/
theorem parseTTML_per_paragraph :
    (∀ ps : List Paragraph, parseTTMLSegments ps = ps.filterMap paragraphSegmentSpec)
    ∧ parseTTMLSegments [⟨"0:00:00", "0:00:02", "one"⟩, ⟨"x", "0:00:05", "two"⟩,
        ⟨"0:00:06", "0:00:08", "three"⟩] = [⟨"one", 0, 2⟩, ⟨"three", 6, 2⟩] := by
  constructor
  · intro ps
    induction ps with
    | nil => rfl
    | cons p rest ih =>
      rw [List.filterMap_cons]
      show (match parseTime p.beginAttr with
        | none => parseTTMLSegments rest
        | some startTime =>
          match parseTime p.endAttr with
          | none => parseTTMLSegments rest
          | some endTime =>
            let text := String.mk (trimSpaceList p.text.data)
            if text ≠ "" then
              ⟨text, startTime, qSub endTime startTime⟩ :: parseTTMLSegments rest
            else parseTTMLSegments rest) = _
      rw [paragraphSegmentSpec]
      cases hb : parseTime p.beginAttr with
      | none => simpa using ih
      | some b =>
        cases he : parseTime p.endAttr with
        | none => simpa using ih
        | some e =>
          by_cases ht : String.mk (trimSpaceList p.text.data) = ""
          · simp [ht, ih]
          · simp [ht, ih, qSub_eq]
  · decide

/-- C8 counterexample -/
theorem selectCaptionURL_empty_url_counterexample :
    selectCaptionURL [⟨"u1", "", "es"⟩, ⟨"", "", "en"⟩] ≠
      (([⟨"u1", "", "es"⟩, ⟨"", "", "en"⟩] : List CaptionTrack).find?
        isEnglishTrack).map (·.baseURL) := by decide

/-- C8 amended -/
theorem selectCaptionURL_spec :
    (∀ (t : CaptionTrack) (rest : List CaptionTrack),
      selectCaptionURL (t :: rest) = some
        (match (t :: rest).find? isEnglishTrack with
         | some m => if m.baseURL = "" then t.baseURL else m.baseURL
         | none => t.baseURL))
    ∧ selectCaptionURL [] = none
    ∧ selectCaptionURL [⟨"u1", "", "es"⟩, ⟨"u2", "", "en"⟩] = some "u2"
    ∧ selectCaptionURL [⟨"u2", "", "en"⟩, ⟨"u1", "", "es"⟩] = some "u2"
    ∧ selectCaptionURL [⟨"u1", "", "es"⟩] = some "u1" := by
  refine ⟨?_, by decide, by decide, by decide, by decide⟩
  intro t rest
  show some (if findCaptionURL (t :: rest) = "" then t.baseURL else findCaptionURL (t :: rest)) = _
  rw [findCaptionURL_eq_find]
  cases h : (t :: rest).find? isEnglishTrack with
  | none => simp
  | some m => by_cases hm : m.baseURL = "" <;> simp [hm]

/-- C6 -/
theorem parseTime_codec_spec :
    (∀ s : String, s.data.getLast? = some 's' →
      parseTime s = parseFloat (String.mk s.data.dropLast))
    ∧ (∀ (s : String) (v : Rat), s.data.getLast? ≠ some 's' →
      (parseTime s = some v ↔
        ∃ a b c va vb vc, splitOnChar ':' s.data = [a, b, c] ∧
          parseFloatCore a = some va ∧ parseFloatCore b = some vb ∧
          parseFloatCore c = some vc ∧ v = va * 3600 + vb * 60 + vc)) := by
  constructor
  · intro s h
    unfold parseTime
    rw [h]
    rfl
  · intro s v h
    unfold parseTime
    split
    · next heq => exact absurd heq h
    · constructor
      · intro hv
        split at hv
        · next a b c heq =>
          split at hv
          · next va vb vc ha hb hc =>
            refine ⟨a, b, c, va, vb, vc, heq, ha, hb, hc, ?_⟩
            have := Option.some.inj hv
            rw [← this]
            simp [qAdd_eq, qMul_eq]
          · exact absurd hv (by simp)
        · exact absurd hv (by simp)
      · rintro ⟨a, b, c, va, vb, vc, hsplit, ha, hb, hc, hval⟩
        rw [hsplit]
        show (match parseFloatCore a, parseFloatCore b, parseFloatCore c with
          | some hv, some mv, some sv => some (qAdd (qAdd (qMul hv 3600) (qMul mv 60)) sv)
          | _, _, _ => none) = some v
        rw [ha, hb, hc, hval]
        simp [qAdd_eq, qMul_eq]

theorem joinSpace_singleton (x : String) : joinSpace [x] = x := rfl

theorem joinSpace_empty_iff (l : List String) (h : ∀ t ∈ l, t ≠ "") :
    joinSpace l = "" ↔ l = [] := by
  cases l with
  | nil => simp [joinSpace]
  | cons a t =>
    simp only [iff_false, ne_eq, reduceCtorEq]
    exact joinSpace_ne_empty (a :: t) (by simp) h

theorem formatLoop_eq_groupLoop (segs : List TranscriptSegment) :
    ∀ (interval cur : Rat) (texts acc : List String),
      (∀ s ∈ segs, s.text ≠ "") → (∀ t ∈ texts, t ≠ "") →
      formatLoop segs interval cur (joinSpace texts) acc = groupLoop segs interval cur texts acc := by
  induction segs with
  | nil =>
    intro interval cur texts acc _ htexts
    show (if joinSpace texts = "" then acc else acc ++ [formatTimeText cur (joinSpace texts)])
      = (if texts = [] then acc else acc ++ [formatTimeText cur (joinSpace texts)])
    by_cases h : texts = []
    · subst h; rfl
    · rw [if_neg h, if_neg (joinSpace_ne_empty texts h htexts)]
  | cons seg rest ih =>
    intro interval cur texts acc hsegs htexts
    have hsegtext : seg.text ≠ "" := hsegs seg (by simp)
    have hrest : ∀ s ∈ rest, s.text ≠ "" := fun s hs => hsegs s (by simp [hs])
    show (if interval ≤ qSub seg.startTime cur ∧ joinSpace texts ≠ "" then
        formatLoop rest interval seg.startTime seg.text
          (acc ++ [formatTimeText cur (joinSpace texts)])
      else formatLoop rest interval cur
        (if joinSpace texts = "" then seg.text else joinSpace texts ++ " " ++ seg.text) acc)
      = (if interval ≤ seg.startTime - cur ∧ texts ≠ [] then
        groupLoop rest interval seg.startTime [seg.text]
          (acc ++ [formatTimeText cur (joinSpace texts)])
      else groupLoop rest interval cur (texts ++ [seg.text]) acc)
    by_cases hc : interval ≤ seg.startTime - cur ∧ texts ≠ []
    · rw [if_pos (by rw [qSub_eq]
                     exact ⟨hc.1, fun he => hc.2 ((joinSpace_empty_iff texts htexts).mp he)⟩),
        if_pos hc]
      rw [show seg.text = joinSpace [seg.text] from rfl]
      exact ih interval seg.startTime [seg.text] _ hrest
        (by intro t ht; simp only [List.mem_singleton] at ht; subst ht; exact hsegtext)
    · rw [if_neg (by rw [qSub_eq]
                     intro hq
                     exact hc ⟨hq.1, fun he => hq.2 (by rw [he]; rfl)⟩),
        if_neg hc]
      have harg : (if joinSpace texts = "" then seg.text else joinSpace texts ++ " " ++ seg.text)
          = joinSpace (texts ++ [seg.text]) := by
        cases texts with
        | nil => rfl
        | cons a t =>
          rw [if_neg (joinSpace_ne_empty (a :: t) (by simp) htexts),
            joinSpace_append (a :: t) seg.text (by simp)]
      rw [harg]
      exact ih interval cur (texts ++ [seg.text]) acc hrest
        (by intro t ht
            rcases List.mem_append.mp ht with h1 | h2
            · exact htexts t h1
            · simp only [List.mem_singleton] at h2; subst h2; exact hsegtext)

/-- C4 -/
theorem FormatTranscript_grouper_spec :
    (∀ (segs : List TranscriptSegment) (interval : Rat),
      (∀ s ∈ segs, String.mk (trimSpaceList s.text.data) ≠ "") →
      FormatTranscript (some ⟨segs⟩) interval = groupSpec segs interval)
    ∧ FormatTranscript (some ⟨[⟨"a", 0, 1⟩, ⟨"b", 4, 1⟩, ⟨"c", 9, 1⟩, ⟨"d", 15, 1⟩]⟩) 10
        = ["(00:00) a b c", "(00:15) d"]
    ∧ FormatTranscript none 10 = []
    ∧ FormatTranscript (some ⟨[]⟩) 10 = [] := by
  refine ⟨?_, by decide, rfl, rfl⟩
  intro segs interval h
  have h' : ∀ s ∈ segs, s.text ≠ "" := by
    intro s hs he
    apply h s hs
    rw [he]
    rfl
  cases segs with
  | nil => rfl
  | cons s0 rest =>
    show formatLoop (s0 :: rest) interval s0.startTime "" [] = _
    rw [show ("" : String) = joinSpace [] from rfl]
    exact formatLoop_eq_groupLoop (s0 :: rest) interval s0.startTime [] [] h' (by simp)

/-- C4 witness -/
theorem FormatTranscript_grouper_spec_witness :
    FormatTranscript (some ⟨[⟨"a", 0, 1⟩, ⟨"b", 4, 1⟩, ⟨"c", 9, 1⟩, ⟨"d", 15, 1⟩]⟩) 10
      = groupSpec [⟨"a", 0, 1⟩, ⟨"b", 4, 1⟩, ⟨"c", 9, 1⟩, ⟨"d", 15, 1⟩] 10 :=
  FormatTranscript_grouper_spec.1 _ 10 (by decide)

theorem toString_intCast (n : Nat) : toString ((n : Int)) = toString n := rfl

theorem sprintf02d_natCast (n : Nat) : sprintf02d ((n : Int)) = pad2 n := by
  rw [sprintf02d, pad2, toString_intCast]

theorem ratTrunc_natFloor {q : Rat} (h : 0 ≤ q) : ratTrunc q = ((⌊q⌋₊ : Nat) : Int) := by
  rw [ratTrunc, if_pos h, ← Int.floor_toNat, Int.toNat_of_nonneg (Int.floor_nonneg.mpr h)]

/-- C7 -/
theorem formatTimeText_timestamp_spec :
    (∀ (s : Rat) (text : String), 0 ≤ s →
      formatTimeText s text =
        (if 0 < ⌊s⌋₊ / 3600 then
          "(" ++ pad2 (⌊s⌋₊ / 3600) ++ ":" ++ pad2 (⌊s⌋₊ % 3600 / 60) ++ ":"
            ++ pad2 (⌊s⌋₊ % 60) ++ ") " ++ text
        else
          "(" ++ pad2 (⌊s⌋₊ % 3600 / 60) ++ ":" ++ pad2 (⌊s⌋₊ % 60) ++ ") " ++ text))
    ∧ formatTimeText 45 "x" = "(00:45) x"
    ∧ formatTimeText 3725 "x" = "(01:02:05) x" := by
  refine ⟨?_, by decide, by decide⟩
  intro s text hs
  have hfl : ((⌊s⌋₊ : Rat)) ≤ s := Nat.floor_le hs
  have h1 : ratTrunc (qDiv s 3600) = ((⌊s⌋₊ / 3600 : Nat) : Int) := by
    rw [qDiv_eq, ratTrunc_natFloor (by positivity), Nat.floor_div_ofNat]
  have hcast1 : ((((⌊s⌋₊ / 3600 : Nat) : Int) * 3600 : Int) : Rat)
      = ((⌊s⌋₊ / 3600 * 3600 : Nat) : Rat) := by norm_cast
  have hk1 : ((⌊s⌋₊ / 3600 * 3600 : Nat) : Rat) ≤ s :=
    le_trans (Nat.cast_le.mpr (Nat.div_mul_le_self _ _)) hfl
  have h2 : ratTrunc (qDiv (qSub s ((((⌊s⌋₊ / 3600 : Nat) : Int) * 3600 : Int) : Rat)) 60)
      = ((⌊s⌋₊ % 3600 / 60 : Nat) : Int) := by
    rw [qDiv_eq, qSub_eq, hcast1,
      ratTrunc_natFloor (div_nonneg (sub_nonneg.mpr hk1) (by norm_num)),
      Nat.floor_div_ofNat, Nat.floor_sub_nat]
    congr 1
    omega
  have hcast2 : ((((⌊s⌋₊ / 3600 : Nat) : Int) * 3600 + ((⌊s⌋₊ % 3600 / 60 : Nat) : Int) * 60 : Int) : Rat)
      = ((⌊s⌋₊ / 3600 * 3600 + ⌊s⌋₊ % 3600 / 60 * 60 : Nat) : Rat) := by norm_cast
  have hk2 : ((⌊s⌋₊ / 3600 * 3600 + ⌊s⌋₊ % 3600 / 60 * 60 : Nat) : Rat) ≤ s :=
    le_trans (Nat.cast_le.mpr (by omega)) hfl
  have h3 : ratTrunc (qSub s ((((⌊s⌋₊ / 3600 : Nat) : Int) * 3600
        + ((⌊s⌋₊ % 3600 / 60 : Nat) : Int) * 60 : Int) : Rat))
      = ((⌊s⌋₊ % 60 : Nat) : Int) := by
    rw [qSub_eq, hcast2, ratTrunc_natFloor (sub_nonneg.mpr hk2), Nat.floor_sub_nat]
    congr 1
    omega
  simp only [formatTimeText]
  rw [h1, h2, h3]
  simp only [Int.natCast_pos, sprintf02d_natCast]

/-- C7 witness -/
theorem formatTimeText_timestamp_spec_witness :
    formatTimeText (3725 : Rat) "x" =
      (if 0 < ⌊(3725 : Rat)⌋₊ / 3600 then
        "(" ++ pad2 (⌊(3725 : Rat)⌋₊ / 3600) ++ ":" ++ pad2 (⌊(3725 : Rat)⌋₊ % 3600 / 60) ++ ":"
          ++ pad2 (⌊(3725 : Rat)⌋₊ % 60) ++ ") " ++ "x"
      else
        "(" ++ pad2 (⌊(3725 : Rat)⌋₊ % 3600 / 60) ++ ":" ++ pad2 (⌊(3725 : Rat)⌋₊ % 60) ++ ") "
          ++ "x") :=
  formatTimeText_timestamp_spec.1 3725 "x" (by norm_num)

theorem scanForId_eq_findSome (cs : List Char) :
    scanForId cs = (List.range cs.length).findSome? (fun i => matchTail (cs.drop i)) := by
  induction cs with
  | nil => rfl
  | cons c rest ih =>
    show (match matchTail (c :: rest) with
      | some id => some id
      | none => scanForId rest) = _
    rw [List.length_cons, List.range_succ_eq_map, List.findSome?_cons, List.findSome?_map]
    cases h : matchTail (c :: rest) with
    | some id => simp [h]
    | none =>
      simp only [List.drop_zero, h, ih]
      rfl

/-- C9 -/
theorem extractVideoId_spec :
    (∀ s : String, s.utf8ByteSize = 11 → extractVideoId s = s)
    ∧ (∀ s : String, s.utf8ByteSize ≠ 11 →
        extractVideoId s =
          ((List.range s.data.length).findSome? (fun i => matchTail (s.data.drop i))).getD "")
    ∧ extractVideoId "https://youtu.be/dQw4w9WgXcQ" = "dQw4w9WgXcQ"
    ∧ extractVideoId "dQw4w9WgXcQ" = "dQw4w9WgXcQ"
    ∧ extractVideoId "not a url" = "" := by
  refine ⟨?_, ?_, by decide, by decide, by decide⟩
  · intro s h
    rw [extractVideoId, if_pos h]
  · intro s h
    rw [extractVideoId, if_neg h, scanForId_eq_findSome]
    cases hx : (List.range s.data.length).findSome? (fun i => matchTail (s.data.drop i)) with
    | none => simp [hx]
    | some id => simp [hx]

/-- C9 witness -/
theorem extractVideoId_spec_witness :
    extractVideoId "dQw4w9WgXcQ" = "dQw4w9WgXcQ"
    ∧ extractVideoId "not a url" =
        ((List.range "not a url".data.length).findSome?
          (fun i => matchTail ("not a url".data.drop i))).getD "" :=
  ⟨extractVideoId_spec.1 "dQw4w9WgXcQ" (by decide),
   extractVideoId_spec.2.1 "not a url" (by decide)⟩

/-- C1 -/
theorem cache_shallow_copy_shares_raw :
    (MemoryRepository.Save false (fun _ => none) "vid" (some ⟨"T", some 0, []⟩)).bind
        (fun cache => MemoryRepository.Get false cache "vid") = .ok ⟨"T", some 0, []⟩
    ∧ observeResponse [⟨[⟨"a", 0, 1⟩]⟩] ⟨"T", some 0, []⟩ = ("T", some [⟨"a", 0, 1⟩], [])
    ∧ observeResponse ([⟨[⟨"a", 0, 1⟩]⟩].set 0 ⟨[⟨"b", 0, 1⟩]⟩) ⟨"T", some 0, []⟩
        = ("T", some [⟨"b", 0, 1⟩], [])
    ∧ ("T", some [(⟨"b", 0, 1⟩ : TranscriptSegment)], ([] : List String))
        ≠ ("T", some [⟨"a", 0, 1⟩], []) := by decide

/-- C2 -/
theorem getTranscript_ignores_cancellation_between_stages :
    GetTranscript ⟨false, true⟩
        ⟨.ok ⟨"T", [⟨"http://u", ".en", "en"⟩]⟩,
         fun _ => .resp 200 (.ok [⟨"0:00:00", "0:00:01", "hi"⟩])⟩
      = (.ok ⟨"T", some ⟨[⟨"hi", 0, 1⟩]⟩, []⟩,
         [.playerRequest, .captionRequest "http://u&fmt=ttml"])
    ∧ NetEv.captionRequest "http://u&fmt=ttml" ∈
        (GetTranscript ⟨false, true⟩
          ⟨.ok ⟨"T", [⟨"http://u", ".en", "en"⟩]⟩,
           fun _ => .resp 200 (.ok [⟨"0:00:00", "0:00:01", "hi"⟩])⟩).2
    ∧ (GetTranscript ⟨false, true⟩
        ⟨.ok ⟨"T", [⟨"http://u", ".en", "en"⟩]⟩,
         fun _ => .resp 200 (.ok [⟨"0:00:00", "0:00:01", "hi"⟩])⟩).1
        ≠ .error .ctxCancelled := by decide

/-- C10 -/
theorem service_rejects_bare_id_before_collaborators :
    ∀ (o : SvcOracle) (req : SvcRequest),
      req.videoURL.utf8ByteSize = 11 → IsValidUrl req.videoURL = false →
      GetTranscripts o req = (.error .invalidURL, [])
      ∧ extractVideoId req.videoURL = req.videoURL := by
  intro o req h11 hdom
  constructor
  · simp only [GetTranscripts]
    rw [if_pos (Or.inr hdom)]
  · rw [extractVideoId, if_pos h11]

/-- C10 witness -/
theorem service_rejects_bare_id_before_collaborators_witness :
    GetTranscripts ⟨.notFound, .error ()⟩ ⟨"dQw4w9WgXcQ", "", 10⟩ = (.error .invalidURL, [])
    ∧ extractVideoId "dQw4w9WgXcQ" = "dQw4w9WgXcQ" :=
  service_rejects_bare_id_before_collaborators ⟨.notFound, .error ()⟩
    ⟨"dQw4w9WgXcQ", "", 10⟩ (by decide) (by decide)

theorem GetTranscripts_ok_raw (o : SvcOracle) (req : SvcRequest)
    (hc : ∀ t, o.repoGet = .found t → ∃ tr, t.raw = some tr ∧ tr.segments ≠ []) :
    ∀ resp, (GetTranscripts o req).1 = .ok resp → resp.raw ≠ none := by
  intro resp h
  simp only [GetTranscripts] at h
  split at h
  · exact absurd h (by simp)
  · split at h
    · exact absurd h (by simp)
    · split at h
      · next t hr =>
        obtain ⟨tr, htr, _⟩ := hc t hr
        injection h with h2
        subst h2
        show t.raw ≠ none
        intro hn
        rw [htr] at hn
        exact Option.noConfusion hn
      all_goals
        split at h
        · exact absurd h (by simp)
        · exact absurd h (by simp)
        · next t hfetch =>
          split at h
          · exact absurd h (by simp)
          · next tr hraw =>
            split at h
            · exact absurd h (by simp)
            · injection h with h2
              subst h2
              show t.raw ≠ none
              intro hn
              rw [hraw] at hn
              exact Option.noConfusion hn

/-- C3 counterexample -/
theorem endpoint_no_transcript_is_500 :
    (handleGetTranscripts ⟨.notFound, .ok (some ⟨"T", some ⟨[]⟩, []⟩)⟩
        ⟨"GET", "https://youtu.be/dQw4w9WgXcQ", ""⟩).1 = 500
    ∧ (handleGetTranscripts ⟨.notFound, .ok (some ⟨"T", some ⟨[]⟩, []⟩)⟩
        ⟨"GET", "https://youtu.be/dQw4w9WgXcQ", ""⟩).1 ≠ 404
    ∧ (GetTranscripts ⟨.notFound, .ok (some ⟨"T", some ⟨[]⟩, []⟩)⟩
        ⟨"https://youtu.be/dQw4w9WgXcQ", "", 0⟩).1 = .error .noTranscript := by decide

/-- C3 amended -/
theorem endpoint_status_spec :
    ∀ (o : SvcOracle) (req : HttpReq),
      req.method = "GET" → req.videoUrl ≠ "" →
      (∀ t, o.repoGet = .found t → ∃ tr, t.raw = some tr ∧ tr.segments ≠ []) →
      ((GetTranscripts o ⟨req.videoUrl, "", (parseFloat req.interval).getD 0⟩).1
          = .error .invalidURL →
        handleGetTranscripts o req = (400, .errBody "Invalid YouTube video URL"))
      ∧ ((GetTranscripts o ⟨req.videoUrl, "", (parseFloat req.interval).getD 0⟩).1
          = .error .noTranscript →
        handleGetTranscripts o req = (500, .errBody "Internal server error"))
      ∧ ((GetTranscripts o ⟨req.videoUrl, "", (parseFloat req.interval).getD 0⟩).1
          = .error .failedToGet →
        handleGetTranscripts o req = (500, .errBody "Internal server error"))
      ∧ (∀ resp,
        (GetTranscripts o ⟨req.videoUrl, "", (parseFloat req.interval).getD 0⟩).1 = .ok resp →
        handleGetTranscripts o req = (200, .okBody resp)) := by
  intro o req hm hv hc
  have hm2 : ¬req.method ≠ "GET" := by simp [hm]
  refine ⟨?_, ?_, ?_, ?_⟩
  · intro h
    simp only [handleGetTranscripts]
    rw [if_neg hm2, if_neg hv, h]
  · intro h
    simp only [handleGetTranscripts]
    rw [if_neg hm2, if_neg hv, h]
  · intro h
    simp only [handleGetTranscripts]
    rw [if_neg hm2, if_neg hv, h]
  · intro resp h
    simp only [handleGetTranscripts]
    rw [if_neg hm2, if_neg hv, h]
    show (if resp.raw = none ∧ resp.formatted = [] then
        (404, HttpBody.errBody "No transcript available")
      else (200, HttpBody.okBody resp)) = (200, HttpBody.okBody resp)
    rw [if_neg (fun hand =>
      GetTranscripts_ok_raw o ⟨req.videoUrl, "", (parseFloat req.interval).getD 0⟩ hc resp h
        hand.1)]

/-- C3 amended witness -/
theorem endpoint_status_spec_witness :
    handleGetTranscripts ⟨.notFound, .ok (some ⟨"T", some ⟨[⟨"hi", 0, 1⟩]⟩, []⟩)⟩
        ⟨"GET", "https://youtu.be/dQw4w9WgXcQ", ""⟩
      = (200, .okBody ⟨"T", some ⟨[⟨"hi", 0, 1⟩]⟩, ["(00:00) hi"]⟩) :=
  (endpoint_status_spec ⟨.notFound, .ok (some ⟨"T", some ⟨[⟨"hi", 0, 1⟩]⟩, []⟩)⟩
      ⟨"GET", "https://youtu.be/dQw4w9WgXcQ", ""⟩ rfl (by decide)
      (fun t ht => nomatch ht)).2.2.2
    ⟨"T", some ⟨[⟨"hi", 0, 1⟩]⟩, ["(00:00) hi"]⟩ (by decide)

/-- C6 witness -/
theorem parseTime_codec_spec_witness :
    parseTime "45s" = parseFloat (String.mk "45s".data.dropLast)
    ∧ (parseTime "1:02:05" = some 3725 ↔
        ∃ a b c va vb vc, splitOnChar ':' "1:02:05".data = [a, b, c] ∧
          parseFloatCore a = some va ∧ parseFloatCore b = some vb ∧
          parseFloatCore c = some vc ∧ (3725 : Rat) = va * 3600 + vb * 60 + vc) :=
  ⟨parseTime_codec_spec.1 "45s" (by decide),
   parseTime_codec_spec.2 "1:02:05" 3725 (by decide)⟩
